import Mathlib

/-!
Shallow embedding of the core of `client/allocrunner/alloc_runner.go`:
the task-state data model, the derived client status, the event ring,
the task-state transition callback, restore, persistence gating and the
update channel, together with proofs of the specified properties.

Go strings stay strings, Go timestamps become `Int` with `0` playing the
role of the zero `time.Time` (`IsZero`), Go maps become association
lists, and the side effects of a call (destroy invocations on sibling
task runners, `PutObject` calls inside a transaction) become explicit
components of the returned value.
-/

/-! ## Task and allocation status constants (from `nomad/structs`) -/

def TaskStatePending : String := "pending"

def TaskStateRunning : String := "running"

def TaskStateDead : String := "dead"

def AllocClientStatusPending : String := "pending"

def AllocClientStatusRunning : String := "running"

def AllocClientStatusComplete : String := "complete"

def AllocClientStatusFailed : String := "failed"

/-- Task event type used when a task is restarting. -/
def TaskRestarting : String := "Restarting"

/-- Task event type recorded on siblings when a task in the group fails. -/
def TaskSiblingFailed : String := "Sibling Task Failed"

/-- Task event type recorded on siblings when the leader task dies. -/
def TaskLeaderDead : String := "Leader Task Dead"

/-- Task event type recorded when a task is killed. -/
def TaskKilled : String := "Task Killed"

/-! ## Data model -/

/-- `structs.TaskEvent`, restricted to the fields `alloc_runner.go` reads
or writes.  The Go field `Type` is spelled `Typ` because `Type` is a Lean
keyword. -/
structure TaskEvent where
  Typ : String
  Time : Int := 0
  FailsTask : Bool := false
  FailedSibling : String := ""
deriving Repr, DecidableEq

/-- `structs.NewTaskEvent`: an event of the given type with zero fields. -/
def NewTaskEvent (t : String) : TaskEvent := { Typ := t }

/-- `TaskEvent.SetFailedSibling`. -/
def SetFailedSibling (ev : TaskEvent) (sibling : String) : TaskEvent :=
  { ev with FailedSibling := sibling }

/-- `structs.TaskState`.  Timestamps are `Int`, `0` meaning the Go zero
time. -/
structure TaskState where
  State : String := ""
  Failed : Bool := false
  Restarts : Nat := 0
  LastRestart : Int := 0
  StartedAt : Int := 0
  FinishedAt : Int := 0
  Events : List TaskEvent := []
deriving Repr, DecidableEq

/-- Association-list rendering of the Go map `r.taskStates`: lookup of the
first binding of a key. -/
def lookupTS : List (String × TaskState) → String → Option TaskState
  | [], _ => none
  | (k', v') :: rest, k => if k' = k then some v' else lookupTS rest k

/-- Association-list rendering of Go map assignment: replace the first
binding of the key, or append a new binding. -/
def updateTS : List (String × TaskState) → String → TaskState → List (String × TaskState)
  | [], k, v => [(k, v)]
  | (k', v') :: rest, k, v =>
      if k' = k then (k, v) :: rest else (k', v') :: updateTS rest k v

/-! ## `getClientStatus` -/

/-- The four flags the loop in `getClientStatus` accumulates. -/
structure StatusFlags where
  pending : Bool := false
  running : Bool := false
  dead : Bool := false
  failed : Bool := false
deriving Repr, DecidableEq

/-- One iteration of the loop in `getClientStatus`: switch on the task's
state and raise the matching flag. -/
def clientStatusStep (acc : StatusFlags) (p : String × TaskState) : StatusFlags :=
  if p.2.State = TaskStateRunning then { acc with running := true }
  else if p.2.State = TaskStatePending then { acc with pending := true }
  else if p.2.State = TaskStateDead then
    (if p.2.Failed then { acc with failed := true } else { acc with dead := true })
  else acc

/-- `getClientStatus`: fold the flag loop over the task states, then apply
the precedence chain failed, running, pending, complete, empty. -/
def getClientStatus (taskStates : List (String × TaskState)) : String :=
  let flags := taskStates.foldl clientStatusStep {}
  if flags.failed then AllocClientStatusFailed
  else if flags.running then AllocClientStatusRunning
  else if flags.pending then AllocClientStatusPending
  else if flags.dead then AllocClientStatusComplete
  else ""

/-! ## `appendTaskEvent` -/

/-- `appendTaskEvent` acting on the `Events` slice: when the ring is at
capacity 10 the oldest entry is shifted out before the append. -/
def appendTaskEvent (events : List TaskEvent) (event : TaskEvent) : List TaskEvent :=
  let capacity := 10
  let events := if events.length = capacity then events.drop 1 else events
  events ++ [event]

/-! ## `getClientStatus` flag characterisation -/

theorem clientStatusStep_pending (acc : StatusFlags) (p : String × TaskState) :
    (clientStatusStep acc p).pending =
      (acc.pending || (p.2.State == TaskStatePending)) := by
  unfold clientStatusStep
  by_cases h1 : p.2.State = TaskStateRunning
  · simp [h1, TaskStatePending, TaskStateRunning, TaskStateDead]
  · by_cases h2 : p.2.State = TaskStatePending
    · simp [h1, h2, TaskStatePending, TaskStateRunning, TaskStateDead]
    · by_cases h3 : p.2.State = TaskStateDead
      · by_cases h4 : p.2.Failed <;>
          simp [h1, h2, h3, h4, TaskStatePending, TaskStateRunning, TaskStateDead]
      · simp [h1, h2, h3]

theorem clientStatusStep_running (acc : StatusFlags) (p : String × TaskState) :
    (clientStatusStep acc p).running =
      (acc.running || (p.2.State == TaskStateRunning)) := by
  unfold clientStatusStep
  by_cases h1 : p.2.State = TaskStateRunning
  · simp [h1, TaskStatePending, TaskStateRunning, TaskStateDead]
  · by_cases h2 : p.2.State = TaskStatePending
    · simp [h1, h2, TaskStatePending, TaskStateRunning, TaskStateDead]
    · by_cases h3 : p.2.State = TaskStateDead
      · by_cases h4 : p.2.Failed <;>
          simp [h1, h2, h3, h4, TaskStatePending, TaskStateRunning, TaskStateDead]
      · simp [h1, h2, h3]

theorem clientStatusStep_dead (acc : StatusFlags) (p : String × TaskState) :
    (clientStatusStep acc p).dead =
      (acc.dead || ((p.2.State == TaskStateDead) && !p.2.Failed)) := by
  unfold clientStatusStep
  by_cases h1 : p.2.State = TaskStateRunning
  · simp [h1, TaskStatePending, TaskStateRunning, TaskStateDead]
  · by_cases h2 : p.2.State = TaskStatePending
    · simp [h1, h2, TaskStatePending, TaskStateRunning, TaskStateDead]
    · by_cases h3 : p.2.State = TaskStateDead
      · by_cases h4 : p.2.Failed <;>
          simp [h1, h2, h3, h4, TaskStatePending, TaskStateRunning, TaskStateDead]
      · simp [h1, h2, h3]

theorem clientStatusStep_failed (acc : StatusFlags) (p : String × TaskState) :
    (clientStatusStep acc p).failed =
      (acc.failed || ((p.2.State == TaskStateDead) && p.2.Failed)) := by
  unfold clientStatusStep
  by_cases h1 : p.2.State = TaskStateRunning
  · simp [h1, TaskStatePending, TaskStateRunning, TaskStateDead]
  · by_cases h2 : p.2.State = TaskStatePending
    · simp [h1, h2, TaskStatePending, TaskStateRunning, TaskStateDead]
    · by_cases h3 : p.2.State = TaskStateDead
      · by_cases h4 : p.2.Failed <;>
          simp [h1, h2, h3, h4, TaskStatePending, TaskStateRunning, TaskStateDead]
      · simp [h1, h2, h3]

theorem foldl_clientStatusStep_pending (l : List (String × TaskState)) :
    ∀ acc : StatusFlags, (l.foldl clientStatusStep acc).pending =
      (acc.pending || l.any (fun p => p.2.State == TaskStatePending)) := by
  induction l with
  | nil => intro acc; simp
  | cons p t ih =>
      intro acc
      simp only [List.foldl_cons, List.any_cons, ih, clientStatusStep_pending,
        Bool.or_assoc]

theorem foldl_clientStatusStep_running (l : List (String × TaskState)) :
    ∀ acc : StatusFlags, (l.foldl clientStatusStep acc).running =
      (acc.running || l.any (fun p => p.2.State == TaskStateRunning)) := by
  induction l with
  | nil => intro acc; simp
  | cons p t ih =>
      intro acc
      simp only [List.foldl_cons, List.any_cons, ih, clientStatusStep_running,
        Bool.or_assoc]

theorem foldl_clientStatusStep_dead (l : List (String × TaskState)) :
    ∀ acc : StatusFlags, (l.foldl clientStatusStep acc).dead =
      (acc.dead || l.any (fun p => (p.2.State == TaskStateDead) && !p.2.Failed)) := by
  induction l with
  | nil => intro acc; simp
  | cons p t ih =>
      intro acc
      simp only [List.foldl_cons, List.any_cons, ih, clientStatusStep_dead,
        Bool.or_assoc]

theorem foldl_clientStatusStep_failed (l : List (String × TaskState)) :
    ∀ acc : StatusFlags, (l.foldl clientStatusStep acc).failed =
      (acc.failed || l.any (fun p => (p.2.State == TaskStateDead) && p.2.Failed)) := by
  induction l with
  | nil => intro acc; simp
  | cons p t ih =>
      intro acc
      simp only [List.foldl_cons, List.any_cons, ih, clientStatusStep_failed,
        Bool.or_assoc]

theorem any_dead_of_no_failed (l : List (String × TaskState))
    (h : l.any (fun p => (p.2.State == TaskStateDead) && p.2.Failed) = false) :
    l.any (fun p => (p.2.State == TaskStateDead) && !p.2.Failed) =
      l.any (fun p => p.2.State == TaskStateDead) := by
  rw [Bool.eq_iff_iff]
  simp only [List.any_eq_true, Bool.and_eq_true, Bool.not_eq_true']
  simp only [List.any_eq_false, Bool.and_eq_true, not_and] at h
  constructor
  · rintro ⟨p, hp, hdead, _⟩
    exact ⟨p, hp, hdead⟩
  · rintro ⟨p, hp, hdead⟩
    refine ⟨p, hp, hdead, ?_⟩
    by_contra hcon
    simp only [Bool.not_eq_false] at hcon
    exact (h p hp hdead) hcon

/-- Claim C1: `getClientStatus` returns `failed` if some task is dead and
failed; otherwise `running` if some task is running; otherwise `pending`
if some task is pending; otherwise `complete` if some task is dead;
otherwise the empty string — the stated precedence, with `""` for the
empty map. -/
theorem getClientStatus_precedence (ts : List (String × TaskState)) :
    getClientStatus ts =
      (if ts.any (fun p => (p.2.State == TaskStateDead) && p.2.Failed) then
        AllocClientStatusFailed
      else if ts.any (fun p => p.2.State == TaskStateRunning) then
        AllocClientStatusRunning
      else if ts.any (fun p => p.2.State == TaskStatePending) then
        AllocClientStatusPending
      else if ts.any (fun p => p.2.State == TaskStateDead) then
        AllocClientStatusComplete
      else "") := by
  unfold getClientStatus
  simp only [foldl_clientStatusStep_pending, foldl_clientStatusStep_running,
    foldl_clientStatusStep_dead, foldl_clientStatusStep_failed]
  show (if (false || ts.any _) = true then _ else _) = _
  simp only [Bool.false_or]
  by_cases hf : ts.any (fun p => (p.2.State == TaskStateDead) && p.2.Failed)
  · simp [hf]
  · simp only [Bool.not_eq_true] at hf
    rw [any_dead_of_no_failed ts hf]

/-! ## Event ring (claim C4) -/

theorem foldl_appendTaskEvent (evs : List TaskEvent) :
    ∀ s : List TaskEvent, s.length ≤ 10 →
      List.foldl appendTaskEvent s evs = (s ++ evs).drop (s.length + evs.length - 10) := by
  induction evs with
  | nil =>
      intro s hs
      simp only [List.foldl_nil, List.append_nil, List.length_nil, Nat.add_zero]
      have h : s.length - 10 = 0 := by omega
      simp [h]
  | cons e t ih =>
      intro s hs
      simp only [List.foldl_cons]
      by_cases hlen : s.length = 10
      · have hstep : appendTaskEvent s e = s.drop 1 ++ [e] := by
          simp [appendTaskEvent, hlen]
        rw [hstep]
        have hlen' : (s.drop 1 ++ [e]).length ≤ 10 := by
          simp; omega
        rw [ih _ hlen']
        cases s with
        | nil => simp at hlen
        | cons a s₁ =>
            have h9 : s₁.length = 9 := by
              simpa using hlen
            have e1 : ((a :: s₁).drop 1 ++ [e]).length + t.length - 10 = t.length := by
              simp [h9]
            have e2 : (a :: s₁).length + (e :: t).length - 10 = t.length + 1 := by
              simp [h9]
            rw [e1, e2]
            simp only [List.drop_succ_cons, List.drop_zero, List.cons_append,
              List.drop_succ_cons, List.append_assoc, List.singleton_append,
              List.nil_append]
      · have hstep : appendTaskEvent s e = s ++ [e] := by
          simp [appendTaskEvent, hlen]
        rw [hstep]
        have hlen' : (s ++ [e]).length ≤ 10 := by
          simp; omega
        rw [ih _ hlen']
        have e3 : (s ++ [e]).length + t.length - 10 = s.length + (e :: t).length - 10 := by
          simp; omega
        rw [e3, List.append_assoc, List.singleton_append]

/-- Claim C4: starting from a task state with no events, after any
sequence of `appendTaskEvent` calls the event list has length at most 10,
insertion order is preserved, and on overflow the oldest event is the one
dropped: the retained events are exactly the last 10 appended, in order. -/
theorem appendTaskEvent_ring_bound (evs : List TaskEvent) :
    (evs.foldl appendTaskEvent []).length ≤ 10 ∧
      evs.foldl appendTaskEvent [] = evs.drop (evs.length - 10) := by
  have h := foldl_appendTaskEvent evs [] (by simp)
  simp only [List.nil_append, List.length_nil, Nat.zero_add] at h
  refine ⟨?_, h⟩
  rw [h]
  simp only [List.length_drop]
  omega

/-! ## `setTaskState` -/

/-- The event-processing prefix of `setTaskState`: record `Failed` when
the event fails the task, account restarts on a `TaskRestarting` event,
and append the event to the ring.  Metric emission is dropped. -/
def applyEventToTaskState (taskState : TaskState) (event : Option TaskEvent) : TaskState :=
  match event with
  | none => taskState
  | some ev =>
      let ts := if ev.FailsTask then { taskState with Failed := true } else taskState
      let ts := if ev.Typ = TaskRestarting then
          { ts with Restarts := ts.Restarts + 1, LastRestart := ev.Time }
        else ts
      { ts with Events := appendTaskEvent ts.Events ev }

/-- One iteration of the loop in the `TaskStateDead` branch of
`setTaskState` over `r.tasks` (modelled as name to `IsLeader` bindings):
collect the name of every other task runner, and note whether the dead
task's runner is the leader. -/
def otherAndLeaderStep (taskName : String) (acc : List String × Bool) (p : String × Bool) :
    List String × Bool :=
  if p.1 ≠ taskName then (acc.1 ++ [p.1], acc.2)
  else if p.2 then (acc.1, true)
  else acc

/-- The loop in the `TaskStateDead` branch of `setTaskState`: every other
task runner's name, and whether the dead task's runner is the leader. -/
def otherAndLeader (tasks : List (String × Bool)) (taskName : String) :
    List String × Bool :=
  tasks.foldl (otherAndLeaderStep taskName) ([], false)

/-- `setTaskState`: `tasks` models `r.tasks` as name to `IsLeader`
bindings, `taskStates` models `r.taskStates`, and `now` the value of
`time.Now()`.  The returned pair is the new `r.taskStates` and the list
of `Destroy` invocations made on other task runners (runner name and
event), in iteration order. -/
def setTaskState (tasks : List (String × Bool)) (taskStates : List (String × TaskState))
    (taskName state : String) (event : Option TaskEvent) (lazySync : Bool) (now : Int) :
    List (String × TaskState) × List (String × TaskEvent) :=
  let taskState := (lookupTS taskStates taskName).getD {}
  let taskState := applyEventToTaskState taskState event
  if lazySync then (updateTS taskStates taskName taskState, [])
  else
    -- If the state hasn't been set use the existing state.
    let state := if state = "" then
        (if taskState.State = "" then TaskStatePending else taskState.State)
      else state
    let res : TaskState × List (String × TaskEvent) :=
      if state = TaskStateRunning then
        -- Capture the start time if it is just starting
        (if taskState.State ≠ TaskStateRunning then { taskState with StartedAt := now }
         else taskState, [])
      else if state = TaskStateDead then
        -- Capture the finished time if not already set
        let taskState := if taskState.FinishedAt = 0 then { taskState with FinishedAt := now }
          else taskState
        let ol := otherAndLeader tasks taskName
        -- If the task failed, kill the other tasks; else if it was the
        -- leader, kill the other tasks.
        let destroyed :=
          if taskState.Failed then
            ol.1.map (fun n => (n, SetFailedSibling (NewTaskEvent TaskSiblingFailed) taskName))
          else if ol.2 then
            ol.1.map (fun n => (n, NewTaskEvent TaskLeaderDead))
          else []
        (taskState, destroyed)
      else (taskState, [])
    (updateTS taskStates taskName { res.1 with State := state }, res.2)

/-! ## Map lemmas -/

theorem lookupTS_updateTS_self (m : List (String × TaskState)) (k : String) (v : TaskState) :
    lookupTS (updateTS m k v) k = some v := by
  induction m with
  | nil => simp [updateTS, lookupTS]
  | cons p rest ih =>
      by_cases h : p.1 = k
      · simp [updateTS, lookupTS, h]
      · simp [updateTS, lookupTS, h, ih]

theorem lookupTS_updateTS_ne (m : List (String × TaskState)) (k k' : String) (v : TaskState)
    (h : k' ≠ k) : lookupTS (updateTS m k v) k' = lookupTS m k' := by
  induction m with
  | nil =>
      have h' : ¬ (k = k') := fun hh => h hh.symm
      simp [updateTS, lookupTS, h']
  | cons p rest ih =>
      by_cases hp : p.1 = k
      · have : ¬ (k = k') := fun hh => h hh.symm
        simp [updateTS, lookupTS, hp, this]
      · simp only [updateTS, lookupTS, if_neg hp]
        by_cases hp' : p.1 = k' <;> simp [hp', ih]

theorem applyEventToTaskState_State (ts : TaskState) (event : Option TaskEvent) :
    (applyEventToTaskState ts event).State = ts.State := by
  cases event with
  | none => rfl
  | some ev =>
      simp only [applyEventToTaskState]
      by_cases h1 : ev.FailsTask <;> by_cases h2 : ev.Typ = TaskRestarting <;>
        simp [h1, h2]

/-! ## Claim C2: terminal monotonicity of `setTaskState` -/

/-- Claim C2 counterexample: a task whose recorded state is `dead` is
shown as `running` again by a subsequent `setTaskState` call that passes
an explicit `running` state — the code has no guard for this. -/
theorem setTaskState_dead_overwritten_cex :
    ((lookupTS [("t1", { State := TaskStateDead })] "t1").getD {}).State = TaskStateDead ∧
      ((lookupTS (setTaskState [] [("t1", { State := TaskStateDead })] "t1"
          TaskStateRunning none false 5).1 "t1").getD {}).State = TaskStateRunning := by
  decide

/-- Claim C2, amended: once a task's recorded state is `dead` it stays
`dead` across every `setTaskState` call that is lazy, passes the empty
state (meaning: keep the last known state), or passes `dead` itself;
`setTaskState` itself does not guard against a caller explicitly passing
`running` or `pending` after `dead`. -/
theorem setTaskState_dead_preserved (tasks : List (String × Bool))
    (taskStates : List (String × TaskState)) (taskName state : String)
    (event : Option TaskEvent) (lazySync : Bool) (now : Int) (ts : TaskState)
    (hts : lookupTS taskStates taskName = some ts)
    (hdead : ts.State = TaskStateDead)
    (hcall : lazySync = true ∨ state = "" ∨ state = TaskStateDead) :
    ((lookupTS (setTaskState tasks taskStates taskName state event lazySync now).1
        taskName).getD {}).State = TaskStateDead := by
  by_cases hl : lazySync = true
  · simp only [setTaskState, hts, Option.getD_some, hl, if_true,
      lookupTS_updateTS_self, applyEventToTaskState_State, hdead]
  · have hl' : lazySync = false := by
      cases lazySync
      · rfl
      · exact absurd rfl hl
    have hstate : state = "" ∨ state = TaskStateDead := by
      rcases hcall with h | h | h
      · exact absurd h hl
      · exact Or.inl h
      · exact Or.inr h
    have happ : (applyEventToTaskState ts event).State = TaskStateDead := by
      rw [applyEventToTaskState_State, hdead]
    rcases hstate with h | h
    · simp only [setTaskState, hts, Option.getD_some, hl', Bool.false_eq_true, if_false, h,
        if_true, happ, lookupTS_updateTS_self]
      have hne : ¬ (TaskStateDead = ("" : String)) := by decide
      have hnr : ¬ (TaskStateDead = TaskStateRunning) := by decide
      simp [hne, hnr, happ]
    · simp only [setTaskState, hts, Option.getD_some, hl', Bool.false_eq_true, if_false, h]
      have hne : ¬ (TaskStateDead = ("" : String)) := by decide
      have hnr : ¬ (TaskStateDead = TaskStateRunning) := by decide
      simp [hne, hnr, lookupTS_updateTS_self]

/-- Witness for `setTaskState_dead_preserved` at a concrete input: task
`t1` is dead, a lazy event-only call keeps it dead. -/
theorem setTaskState_dead_preserved_witness :
    ((lookupTS (setTaskState [] [("t1", { State := TaskStateDead })] "t1"
        "" (some (NewTaskEvent TaskKilled)) true 7).1 "t1").getD {}).State = TaskStateDead :=
  setTaskState_dead_preserved [] [("t1", { State := TaskStateDead })] "t1" ""
    (some (NewTaskEvent TaskKilled)) true 7 { State := TaskStateDead }
    (by decide) (by decide) (Or.inl rfl)

/-! ## Claim C3: sibling-failure and leader cascade -/

theorem otherAndLeaderStep_eq (taskName : String) (acc : List String × Bool)
    (p : String × Bool) :
    otherAndLeaderStep taskName acc p =
      (acc.1 ++ (if p.1 != taskName then [p.1] else []),
        acc.2 || (p.1 == taskName && p.2)) := by
  unfold otherAndLeaderStep
  by_cases h : p.1 = taskName
  · by_cases h2 : p.2 = true <;> simp [h, h2]
  · simp [h]

theorem foldl_otherAndLeaderStep (taskName : String) (tasks : List (String × Bool)) :
    ∀ (o : List String) (b : Bool),
      tasks.foldl (otherAndLeaderStep taskName) (o, b) =
        (o ++ (tasks.filter (fun p => p.1 != taskName)).map Prod.fst,
          b || tasks.any (fun p => p.1 == taskName && p.2)) := by
  induction tasks with
  | nil => intro o b; simp
  | cons p t ih =>
      intro o b
      simp only [List.foldl_cons, otherAndLeaderStep_eq]
      rw [ih]
      by_cases h : p.1 = taskName
      · by_cases h2 : p.2 = true <;> simp [h, h2]
      · simp [h, List.append_assoc, Bool.or_assoc]

theorem otherAndLeader_spec (tasks : List (String × Bool)) (taskName : String) :
    otherAndLeader tasks taskName =
      ((tasks.filter (fun p => p.1 != taskName)).map Prod.fst,
        tasks.any (fun p => p.1 == taskName && p.2)) := by
  unfold otherAndLeader
  rw [foldl_otherAndLeaderStep]
  simp

/-- Claim C3: when `setTaskState` records a task entering `dead`, the
destroy calls it makes are: every other task runner with a
`TaskSiblingFailed` event carrying the dead task's name when the task's
`Failed` flag (after applying the triggering event) is set; otherwise
every other task runner with a `TaskLeaderDead` event when the dead
task's runner is the leader; otherwise none. -/
theorem setTaskState_dead_cascade (tasks : List (String × Bool))
    (taskStates : List (String × TaskState)) (taskName : String)
    (event : Option TaskEvent) (now : Int) :
    (setTaskState tasks taskStates taskName TaskStateDead event false now).2 =
      (if (applyEventToTaskState ((lookupTS taskStates taskName).getD {}) event).Failed then
        ((tasks.filter (fun p => p.1 != taskName)).map Prod.fst).map
          (fun n => (n, SetFailedSibling (NewTaskEvent TaskSiblingFailed) taskName))
      else if tasks.any (fun p => p.1 == taskName && p.2) then
        ((tasks.filter (fun p => p.1 != taskName)).map Prod.fst).map
          (fun n => (n, NewTaskEvent TaskLeaderDead))
      else []) := by
  have hne : ¬ (TaskStateDead = ("" : String)) := by decide
  have hnr : ¬ (TaskStateDead = TaskStateRunning) := by decide
  simp only [setTaskState, Bool.false_eq_true, if_false, hne, hnr, if_true,
    otherAndLeader_spec]
  by_cases hfin :
      (applyEventToTaskState ((lookupTS taskStates taskName).getD {}) event).FinishedAt = 0 <;>
    simp [hfin]

/-! ## Claim C7: `finalizeTerminalAlloc` -/

/-- Modelled from the spec: `structs.Allocation.ClientTerminalStatus` is
not under `src/`; per the glossary, terminal means the client status is
`complete` or `failed`. -/
def ClientTerminalStatus (clientStatus : String) : Bool :=
  clientStatus == AllocClientStatusComplete || clientStatus == AllocClientStatusFailed

/-- The per-task body of the loop in `finalizeTerminalAlloc`: set
`FinishedAt` to `now` when it is still zero. -/
def fixFinished (now : Int) (ts : TaskState) : TaskState :=
  if ts.FinishedAt = 0 then { ts with FinishedAt := now } else ts

/-- One iteration of the loop in `finalizeTerminalAlloc`: fetch the
task's state (inserting a fresh one when missing) and ensure
`FinishedAt` is set. -/
def finalizeStep (now : Int) (m : List (String × TaskState)) (name : String) :
    List (String × TaskState) :=
  updateTS m name (fixFinished now ((lookupTS m name).getD {}))

/-- `finalizeTerminalAlloc`: when the client status is terminal, ensure
every task of the group has a task state whose `FinishedAt` is set;
otherwise change nothing.  `groupTasks` models `group.Tasks` by name and
`now` the value of `time.Now()`. -/
def finalizeTerminalAlloc (clientStatus : String) (groupTasks : List String)
    (taskStates : List (String × TaskState)) (now : Int) : List (String × TaskState) :=
  if ¬ ClientTerminalStatus clientStatus then taskStates
  else groupTasks.foldl (finalizeStep now) taskStates

theorem lookupTS_finalizeStep_self (now : Int) (m : List (String × TaskState))
    (name : String) :
    lookupTS (finalizeStep now m name) name =
      some (fixFinished now ((lookupTS m name).getD {})) := by
  unfold finalizeStep
  exact lookupTS_updateTS_self m name _

theorem lookupTS_finalizeStep_ne (now : Int) (m : List (String × TaskState))
    (name name' : String) (h : name' ≠ name) :
    lookupTS (finalizeStep now m name) name' = lookupTS m name' := by
  unfold finalizeStep
  exact lookupTS_updateTS_ne m name name' _ h

theorem fixFinished_idem (now : Int) (ts : TaskState) (hnow : now ≠ 0) :
    fixFinished now (fixFinished now ts) = fixFinished now ts := by
  unfold fixFinished
  by_cases h : ts.FinishedAt = 0 <;> simp [h, hnow]

theorem lookupTS_foldl_finalizeStep_notMem (now : Int) (l : List String) :
    ∀ (m : List (String × TaskState)) (name : String), name ∉ l →
      lookupTS (l.foldl (finalizeStep now) m) name = lookupTS m name := by
  induction l with
  | nil => intro m name _; rfl
  | cons n t ih =>
      intro m name hmem
      simp only [List.foldl_cons]
      have hne : name ≠ n := fun hh => hmem (hh ▸ List.mem_cons_self n t)
      rw [ih _ name (fun hh => hmem (List.mem_cons_of_mem n hh)),
        lookupTS_finalizeStep_ne now m n name hne]

theorem lookupTS_foldl_finalizeStep_mem (now : Int) (hnow : now ≠ 0) (l : List String) :
    ∀ (m : List (String × TaskState)) (name : String), name ∈ l →
      lookupTS (l.foldl (finalizeStep now) m) name =
        some (fixFinished now ((lookupTS m name).getD {})) := by
  induction l with
  | nil => intro m name hmem; simp at hmem
  | cons n t ih =>
      intro m name hmem
      simp only [List.foldl_cons]
      by_cases hmt : name ∈ t
      · rw [ih _ name hmt]
        by_cases hn : name = n
        · subst hn
          rw [lookupTS_finalizeStep_self, Option.getD_some, fixFinished_idem now _ hnow]
        · rw [lookupTS_finalizeStep_ne now m n name hn]
      · have hn : name = n := by
          rcases List.mem_cons.mp hmem with h | h
          · exact h
          · exact absurd h hmt
        subst hn
        rw [lookupTS_foldl_finalizeStep_notMem now t _ name hmt,
          lookupTS_finalizeStep_self]

/-- Claim C7: when the composed snapshot's client status is terminal
(complete or failed), `finalizeTerminalAlloc` gives every task of the
group a task-state entry whose `FinishedAt` is non-zero — set to the
current time when it was zero or missing, kept otherwise; when the status
is not terminal nothing changes. -/
theorem finalizeTerminalAlloc_spec (clientStatus : String) (groupTasks : List String)
    (taskStates : List (String × TaskState)) (now : Int) (hnow : now ≠ 0) :
    (ClientTerminalStatus clientStatus = false →
      finalizeTerminalAlloc clientStatus groupTasks taskStates now = taskStates) ∧
    (ClientTerminalStatus clientStatus = true →
      ∀ name ∈ groupTasks,
        lookupTS (finalizeTerminalAlloc clientStatus groupTasks taskStates now) name =
          some (fixFinished now ((lookupTS taskStates name).getD {})) ∧
        ∀ ts', lookupTS (finalizeTerminalAlloc clientStatus groupTasks taskStates now) name
            = some ts' → ts'.FinishedAt ≠ 0) := by
  constructor
  · intro h
    simp [finalizeTerminalAlloc, h]
  · intro h name hmem
    have hres :
        lookupTS (finalizeTerminalAlloc clientStatus groupTasks taskStates now) name =
          some (fixFinished now ((lookupTS taskStates name).getD {})) := by
      simp only [finalizeTerminalAlloc, h, Bool.true_eq_false, not_false_eq_true,
        if_neg, if_false]
      exact lookupTS_foldl_finalizeStep_mem now hnow groupTasks taskStates name hmem
    refine ⟨hres, ?_⟩
    intro ts' hts'
    rw [hres] at hts'
    have : ts' = fixFinished now ((lookupTS taskStates name).getD {}) :=
      (Option.some.injEq _ _ ▸ hts').symm ▸ rfl
    subst this
    unfold fixFinished
    by_cases hz : ((lookupTS taskStates name).getD {}).FinishedAt = 0 <;> simp [hz, hnow]

/-- Witness for `finalizeTerminalAlloc_spec` at a concrete input: a
complete allocation with one finished and one missing task state. -/
theorem finalizeTerminalAlloc_spec_witness :
    lookupTS (finalizeTerminalAlloc AllocClientStatusComplete ["t1", "t2"]
        [("t1", { State := TaskStateDead, FinishedAt := 3 })] 7) "t2" =
      some (fixFinished 7 ((lookupTS [("t1", { State := TaskStateDead, FinishedAt := 3 })]
        "t2").getD {})) :=
  ((finalizeTerminalAlloc_spec AllocClientStatusComplete ["t1", "t2"]
      [("t1", { State := TaskStateDead, FinishedAt := 3 })] 7 (by decide)).2
    (by decide) "t2" (by decide)).1

/-! ## Claim C8: `RestoreState` skips dead tasks -/

/-- The result of the task-runner restore loop of `RestoreState`: which
tasks were marked restored and which names got a task runner stored in
`r.tasks`. -/
structure RestoreResult where
  restored : List String
  tasks : List String
deriving Repr, DecidableEq

/-- One iteration of the restore loop of `RestoreState` for a task of the
group: skip tasks with no saved state, mark the rest restored, and create
a task runner only for tasks that are not dead.  (Launching, the upgrade
restart and the terminal-alloc destroy act on the created runner and are
not part of the stored maps.) -/
def restoreTask (taskStates : List (String × TaskState)) (acc : RestoreResult)
    (name : String) : RestoreResult :=
  match lookupTS taskStates name with
  | none => acc
  | some st =>
      let acc := { acc with restored := acc.restored ++ [name] }
      if st.State = TaskStateDead then acc
      else { acc with tasks := acc.tasks ++ [name] }

/-- The task-runner restore loop of `RestoreState` over the task group. -/
def restoreTaskRunners (tgTasks : List String)
    (taskStates : List (String × TaskState)) : RestoreResult :=
  tgTasks.foldl (restoreTask taskStates) ⟨[], []⟩

theorem foldl_restoreTask_notMem (taskStates : List (String × TaskState))
    (name : String) (ts : TaskState)
    (hts : lookupTS taskStates name = some ts) (hdead : ts.State = TaskStateDead)
    (l : List String) :
    ∀ acc : RestoreResult, name ∉ acc.tasks →
      name ∉ (l.foldl (restoreTask taskStates) acc).tasks := by
  induction l with
  | nil => intro acc h; exact h
  | cons n t ih =>
      intro acc h
      simp only [List.foldl_cons]
      refine ih _ ?_
      unfold restoreTask
      cases hlk : lookupTS taskStates n with
      | none => exact h
      | some st =>
          simp only
          by_cases hd : st.State = TaskStateDead
          · simp [hd]; exact h
          · simp only [hd, if_false]
            intro hmem
            rcases List.mem_append.mp hmem with hmem | hmem
            · exact h hmem
            · have : name = n := by simpa using hmem
              subst this
              rw [hts] at hlk
              exact hd (by injection hlk with h'; rw [← h', hdead])

/-- Claim C8: after the restore loop of `RestoreState` runs on persisted
state in which a task's recorded state is `dead`, no task runner is
created for that task. -/
theorem restoreState_skips_dead (tgTasks : List String)
    (taskStates : List (String × TaskState)) (name : String) (ts : TaskState)
    (hts : lookupTS taskStates name = some ts)
    (hdead : ts.State = TaskStateDead) :
    name ∉ (restoreTaskRunners tgTasks taskStates).tasks := by
  unfold restoreTaskRunners
  exact foldl_restoreTask_notMem taskStates name ts hts hdead tgTasks ⟨[], []⟩
    (by simp)

/-- Witness for `restoreState_skips_dead` at a concrete input: `t1` is
dead in the persisted state, `t2` is running; no runner is created for
`t1`. -/
theorem restoreState_skips_dead_witness :
    "t1" ∉ (restoreTaskRunners ["t1", "t2"]
      [("t1", { State := TaskStateDead, Failed := true }),
       ("t2", { State := TaskStateRunning })]).tasks :=
  restoreState_skips_dead ["t1", "t2"]
    [("t1", { State := TaskStateDead, Failed := true }),
     ("t2", { State := TaskStateRunning })]
    "t1" { State := TaskStateDead, Failed := true } (by decide) (by decide)

/-! ## Persistence: `saveAllocRunnerState` (claims C5, C6, C10) -/

/-- The persistence markers of the runner: the last persisted `EvalID`
and the two one-shot flags. -/
structure PersistFlags where
  persistedEval : String := ""
  immutablePersisted : Bool := false
  allocDirPersisted : Bool := false
deriving Repr, DecidableEq

/-- The inputs of one `saveAllocRunnerState` call: whether the runner's
context has been cancelled, the snapshot's `EvalID`, whether the copied
alloc dir is non-nil, and whether the batch transaction commits. -/
structure SaveCall where
  ctxCanceled : Bool
  evalID : String
  allocDirPresent : Bool
  commitOk : Bool
deriving Repr, DecidableEq

/-- The observable outcome of one `saveAllocRunnerState` call: the new
persistence markers, the keys passed to `PutObject` inside the
transaction, and whether the transaction committed (so the `OnCommit`
callbacks ran and the puts reached the store). -/
structure SaveResult where
  flags : PersistFlags
  puts : List String
  committed : Bool
deriving Repr, DecidableEq

/-- `saveAllocRunnerState`: return immediately when the context is
cancelled; otherwise write `alloc` iff the `EvalID` changed, `immutable`
iff not yet persisted, `alloc-dir` iff not yet persisted and the dir is
non-nil, and `mutable` always; the markers are only updated by the
`OnCommit` callbacks, hence only when the transaction commits. -/
def saveAllocRunnerState (f : PersistFlags) (c : SaveCall) : SaveResult :=
  if c.ctxCanceled then ⟨f, [], false⟩
  else
    let allocWrite : Bool := c.evalID != f.persistedEval
    let immutableWrite : Bool := !f.immutablePersisted
    let allocDirWrite : Bool := !f.allocDirPersisted && c.allocDirPresent
    let puts := (if allocWrite then ["alloc"] else []) ++
      (if immutableWrite then ["immutable"] else []) ++
      (if allocDirWrite then ["alloc-dir"] else []) ++ ["mutable"]
    if c.commitOk then
      ⟨{ persistedEval := if allocWrite then c.evalID else f.persistedEval,
         immutablePersisted := if immutableWrite then true else f.immutablePersisted,
         allocDirPersisted := if allocDirWrite then true else f.allocDirPersisted },
        puts, true⟩
    else ⟨f, puts, false⟩

/-- A sequence of `saveAllocRunnerState` calls: final markers, and the
keys written to the store, which only happens for committed calls. -/
def runSaves : PersistFlags → List SaveCall → PersistFlags × List String
  | f, [] => (f, [])
  | f, c :: calls =>
      let r := saveAllocRunnerState f c
      let tail := runSaves r.flags calls
      (tail.1, (if r.committed then r.puts else []) ++ tail.2)

/-- Claim C5: within one `saveAllocRunnerState` transaction the `alloc`
record is written iff the snapshot's `EvalID` differs from the last
persisted `EvalID`, and the persisted-eval marker is updated to the new
`EvalID` only when the transaction commits. -/
theorem saveAllocRunnerState_evalID_gating (f : PersistFlags) (c : SaveCall)
    (h : c.ctxCanceled = false) :
    ("alloc" ∈ (saveAllocRunnerState f c).puts ↔ c.evalID ≠ f.persistedEval) ∧
    ((saveAllocRunnerState f c).committed = true →
      (saveAllocRunnerState f c).flags.persistedEval =
        (if c.evalID ≠ f.persistedEval then c.evalID else f.persistedEval)) ∧
    ((saveAllocRunnerState f c).committed = false →
      (saveAllocRunnerState f c).flags.persistedEval = f.persistedEval) := by
  unfold saveAllocRunnerState
  by_cases he : c.evalID = f.persistedEval <;>
    cases hc : c.commitOk <;>
      simp [h, he]

/-- Witness for `saveAllocRunnerState_evalID_gating` at a concrete
input. -/
theorem saveAllocRunnerState_evalID_gating_witness :
    ("alloc" ∈ (saveAllocRunnerState {} ⟨false, "e1", true, true⟩).puts ↔
      ("e1" : String) ≠ ("" : String)) ∧
    ((saveAllocRunnerState {} ⟨false, "e1", true, true⟩).committed = true →
      (saveAllocRunnerState {} ⟨false, "e1", true, true⟩).flags.persistedEval =
        (if ("e1" : String) ≠ ("" : String) then "e1" else "")) ∧
    ((saveAllocRunnerState {} ⟨false, "e1", true, true⟩).committed = false →
      (saveAllocRunnerState {} ⟨false, "e1", true, true⟩).flags.persistedEval = "") :=
  saveAllocRunnerState_evalID_gating {} ⟨false, "e1", true, true⟩ rfl

theorem save_count_immutable_flagged (f : PersistFlags) (c : SaveCall)
    (h : f.immutablePersisted = true) :
    (saveAllocRunnerState f c).puts.count "immutable" = 0 := by
  unfold saveAllocRunnerState
  cases hc : c.ctxCanceled <;>
    cases hk : c.commitOk <;>
      by_cases he : c.evalID = f.persistedEval <;>
        cases hd : (!f.allocDirPersisted && c.allocDirPresent) <;>
          simp [h, he, hd, List.count_append, List.count_singleton, List.count_cons]

theorem save_count_immutable_le_one (f : PersistFlags) (c : SaveCall) :
    (saveAllocRunnerState f c).puts.count "immutable" ≤ 1 := by
  unfold saveAllocRunnerState
  cases hc : c.ctxCanceled <;>
    cases hk : c.commitOk <;>
      cases hi : f.immutablePersisted <;>
        by_cases he : c.evalID = f.persistedEval <;>
          cases hd : (!f.allocDirPersisted && c.allocDirPresent) <;>
            simp [hi, he, hd, List.count_append, List.count_singleton, List.count_cons]

theorem save_count_allocdir_flagged (f : PersistFlags) (c : SaveCall)
    (h : f.allocDirPersisted = true) :
    (saveAllocRunnerState f c).puts.count "alloc-dir" = 0 := by
  unfold saveAllocRunnerState
  cases hc : c.ctxCanceled <;>
    cases hk : c.commitOk <;>
      cases hi : f.immutablePersisted <;>
        by_cases he : c.evalID = f.persistedEval <;>
          simp [h, hi, he, List.count_append, List.count_singleton, List.count_cons]

theorem save_count_allocdir_le_one (f : PersistFlags) (c : SaveCall) :
    (saveAllocRunnerState f c).puts.count "alloc-dir" ≤ 1 := by
  unfold saveAllocRunnerState
  cases hc : c.ctxCanceled <;>
    cases hk : c.commitOk <;>
      cases hi : f.immutablePersisted <;>
        cases ha : f.allocDirPersisted <;>
          cases hp : c.allocDirPresent <;>
            by_cases he : c.evalID = f.persistedEval <;>
              simp [hi, ha, hp, he, List.count_append, List.count_singleton,
                List.count_cons]

theorem save_committed_immutable_flag (f : PersistFlags) (c : SaveCall)
    (h : (saveAllocRunnerState f c).committed = true) :
    (saveAllocRunnerState f c).flags.immutablePersisted = true := by
  unfold saveAllocRunnerState at h ⊢
  cases hc : c.ctxCanceled <;> cases hk : c.commitOk <;>
    cases hi : f.immutablePersisted <;> simp [hc, hk, hi] at h ⊢

theorem save_committed_allocdir_flag (f : PersistFlags) (c : SaveCall)
    (h : (saveAllocRunnerState f c).committed = true) :
    (saveAllocRunnerState f c).flags.allocDirPersisted =
      (f.allocDirPersisted || c.allocDirPresent) := by
  unfold saveAllocRunnerState at h ⊢
  cases hc : c.ctxCanceled <;> cases hk : c.commitOk <;>
    cases ha : f.allocDirPersisted <;> cases hp : c.allocDirPresent <;>
      simp [hc, hk, ha, hp] at h ⊢

theorem save_not_committed_flags (f : PersistFlags) (c : SaveCall)
    (h : (saveAllocRunnerState f c).committed = false) :
    (saveAllocRunnerState f c).flags = f := by
  unfold saveAllocRunnerState at h ⊢
  cases hc : c.ctxCanceled <;> cases hk : c.commitOk <;> simp [hc, hk] at h ⊢

theorem runSaves_immutable_flagged (calls : List SaveCall) :
    ∀ f : PersistFlags, f.immutablePersisted = true →
      (runSaves f calls).2.count "immutable" = 0 := by
  induction calls with
  | nil => intro f _; simp [runSaves]
  | cons c t ih =>
      intro f h
      simp only [runSaves, List.count_append]
      cases hk : (saveAllocRunnerState f c).committed
      · rw [save_not_committed_flags f c hk, ih f h]
        simp
      · rw [ih _ (save_committed_immutable_flag f c hk)]
        simp [save_count_immutable_flagged f c h]

theorem runSaves_immutable_le_one (calls : List SaveCall) :
    ∀ f : PersistFlags, (runSaves f calls).2.count "immutable" ≤ 1 := by
  induction calls with
  | nil => intro f; simp [runSaves]
  | cons c t ih =>
      intro f
      simp only [runSaves, List.count_append]
      cases hk : (saveAllocRunnerState f c).committed
      · rw [save_not_committed_flags f c hk]
        simpa using ih f
      · rw [runSaves_immutable_flagged t _ (save_committed_immutable_flag f c hk)]
        simpa using save_count_immutable_le_one f c

theorem runSaves_allocdir_flagged (calls : List SaveCall) :
    ∀ f : PersistFlags, f.allocDirPersisted = true →
      (runSaves f calls).2.count "alloc-dir" = 0 := by
  induction calls with
  | nil => intro f _; simp [runSaves]
  | cons c t ih =>
      intro f h
      simp only [runSaves, List.count_append]
      cases hk : (saveAllocRunnerState f c).committed
      · rw [save_not_committed_flags f c hk, ih f h]
        simp
      · have : (saveAllocRunnerState f c).flags.allocDirPersisted = true := by
          rw [save_committed_allocdir_flag f c hk, h, Bool.true_or]
        rw [ih _ this]
        simp [save_count_allocdir_flagged f c h]

theorem runSaves_allocdir_le_one (calls : List SaveCall) :
    ∀ f : PersistFlags, f.allocDirPersisted = false →
      (runSaves f calls).2.count "alloc-dir" ≤ 1 := by
  induction calls with
  | nil => intro f _; simp [runSaves]
  | cons c t ih =>
      intro f h
      simp only [runSaves, List.count_append]
      cases hk : (saveAllocRunnerState f c).committed
      · rw [save_not_committed_flags f c hk]
        simpa using ih f h
      · have hflag : (saveAllocRunnerState f c).flags.allocDirPersisted =
            c.allocDirPresent := by
          rw [save_committed_allocdir_flag f c hk, h, Bool.false_or]
        cases hp : c.allocDirPresent
        · have hz : (saveAllocRunnerState f c).puts.count "alloc-dir" = 0 := by
            unfold saveAllocRunnerState
            cases hc : c.ctxCanceled <;>
              cases hcm : c.commitOk <;>
                cases hi : f.immutablePersisted <;>
                  by_cases he : c.evalID = f.persistedEval <;>
                    simp [h, hp, hi, he, List.count_append, List.count_singleton,
                      List.count_cons]
          have : (saveAllocRunnerState f c).flags.allocDirPersisted = false := by
            rw [hflag, hp]
          simpa [hz] using ih _ this
        · rw [runSaves_allocdir_flagged t _ (hflag.trans hp)]
          simpa using save_count_allocdir_le_one f c

/-- Claim C6: over one runner lifetime (markers start cleared) the
`immutable` and `alloc-dir` records each reach the store at most once,
the `alloc-dir` record is only written when the copied dir is non-nil,
and an aborted transaction leaves every marker unchanged. -/
theorem saveAllocRunnerState_once_only (calls : List SaveCall) (f : PersistFlags)
    (c : SaveCall) :
    (runSaves {} calls).2.count "immutable" ≤ 1 ∧
    (runSaves {} calls).2.count "alloc-dir" ≤ 1 ∧
    ("alloc-dir" ∈ (saveAllocRunnerState f c).puts → c.allocDirPresent = true) ∧
    ((saveAllocRunnerState f c).committed = false →
      (saveAllocRunnerState f c).flags = f) := by
  refine ⟨runSaves_immutable_le_one calls {}, runSaves_allocdir_le_one calls {} rfl,
    ?_, save_not_committed_flags f c⟩
  intro hmem
  by_contra hp
  have hp' : c.allocDirPresent = false := by
    cases hcp : c.allocDirPresent
    · rfl
    · exact absurd hcp hp
  unfold saveAllocRunnerState at hmem
  cases hc : c.ctxCanceled <;>
    cases hk : c.commitOk <;>
      cases hi : f.immutablePersisted <;>
        by_cases he : c.evalID = f.persistedEval <;>
          simp [hc, hk, hi, he, hp'] at hmem

/-- Witness for `saveAllocRunnerState_once_only` at a concrete input:
two committed saves and one aborted save from a fresh runner. -/
theorem saveAllocRunnerState_once_only_witness :
    (runSaves {} [⟨false, "e1", true, true⟩, ⟨false, "e1", true, false⟩,
        ⟨false, "e2", true, true⟩]).2.count "immutable" ≤ 1 ∧
    (runSaves {} [⟨false, "e1", true, true⟩, ⟨false, "e1", true, false⟩,
        ⟨false, "e2", true, true⟩]).2.count "alloc-dir" ≤ 1 ∧
    ("alloc-dir" ∈ (saveAllocRunnerState {} ⟨false, "e1", true, true⟩).puts →
      (true : Bool) = true) ∧
    ((saveAllocRunnerState {} ⟨false, "e1", true, true⟩).committed = false →
      (saveAllocRunnerState {} ⟨false, "e1", true, true⟩).flags = {}) :=
  saveAllocRunnerState_once_only
    [⟨false, "e1", true, true⟩, ⟨false, "e1", true, false⟩, ⟨false, "e2", true, true⟩]
    {} ⟨false, "e1", true, true⟩

/-! ## Claim C10: `Destroy` stops persistence -/

/-- The runner's cancellation state: `ctxCanceled` models
`r.ctx.Err() == context.Canceled` after `exitFn`, `broadcastClosed` the
closed broadcaster. -/
structure RunnerCtx where
  ctxCanceled : Bool := false
  broadcastClosed : Bool := false
deriving Repr, DecidableEq

/-- `Destroy`: cancel the runner's context and close the broadcaster. -/
def Destroy (r : RunnerCtx) : RunnerCtx :=
  { r with ctxCanceled := true, broadcastClosed := true }

/-- Claim C10: once the runner's context is cancelled, as `Destroy` does,
every subsequent `saveAllocRunnerState` call returns without a write
transaction: no key reaches the store and the persistence markers are
unchanged. -/
theorem destroy_disables_persistence (r : RunnerCtx) (f : PersistFlags)
    (calls : List SaveCall)
    (h : ∀ c ∈ calls, c.ctxCanceled = (Destroy r).ctxCanceled) :
    runSaves f calls = (f, []) := by
  induction calls with
  | nil => rfl
  | cons c t ih =>
      have hc : c.ctxCanceled = true := h c (List.mem_cons_self c t)
      have hsave : saveAllocRunnerState f c = ⟨f, [], false⟩ := by
        unfold saveAllocRunnerState
        rw [hc]
        rfl
      simp only [runSaves, hsave]
      rw [ih (fun c' hc' => h c' (List.mem_cons_of_mem c hc'))]
      rfl

/-- Witness for `destroy_disables_persistence` at a concrete input. -/
theorem destroy_disables_persistence_witness :
    runSaves { persistedEval := "e1", immutablePersisted := true }
        [⟨true, "e2", true, true⟩, ⟨true, "e3", false, true⟩] =
      ({ persistedEval := "e1", immutablePersisted := true }, []) :=
  destroy_disables_persistence {} { persistedEval := "e1", immutablePersisted := true }
    [⟨true, "e2", true, true⟩, ⟨true, "e3", false, true⟩] (by decide)

/-! ## Claim C9: `Update` and the update channel -/

/-- `structs.Allocation`, restricted to identity: enough to track which
updates sit in the channel. -/
structure Allocation where
  ID : String := ""
deriving Repr, DecidableEq

/-- The capacity of `r.updateCh`. -/
def updateChCapacity : Nat := 64

/-- `Update`: a non-blocking send of the new allocation on the buffered
channel `r.updateCh`, modelled by its queue; when the buffer is full the
update is dropped (with an error log) and nothing else changes.  Returns
the new queue and whether the send succeeded. -/
def Update (updateCh : List Allocation) (update : Allocation) :
    List Allocation × Bool :=
  if updateCh.length < updateChCapacity then (updateCh ++ [update], true)
  else (updateCh, false)

/-- One operation on the update channel: a producer `Update` call or a
consumer receive by the runner's select loop. -/
inductive ChanOp where
  | send (u : Allocation)
  | recv
deriving Repr, DecidableEq

/-- Effect of one channel operation on the queue. -/
def chanStep (ch : List Allocation) : ChanOp → List Allocation
  | ChanOp.send u => (Update ch u).1
  | ChanOp.recv => ch.drop 1

/-- The queue contents after a history of operations from the empty
channel. -/
def runUpdateCh (ops : List ChanOp) : List Allocation :=
  ops.foldl chanStep []

/-- The updates sent over a history of operations, in arrival order. -/
def sentUpdates : List ChanOp → List Allocation
  | [] => []
  | ChanOp.send u :: rest => u :: sentUpdates rest
  | ChanOp.recv :: rest => sentUpdates rest

theorem foldl_chanStep_length (ops : List ChanOp) :
    ∀ ch : List Allocation, ch.length ≤ updateChCapacity →
      (ops.foldl chanStep ch).length ≤ updateChCapacity := by
  induction ops with
  | nil => intro ch h; exact h
  | cons op t ih =>
      intro ch h
      simp only [List.foldl_cons]
      apply ih
      cases op with
      | send u =>
          simp only [chanStep, Update]
          by_cases hl : ch.length < updateChCapacity
          · simp only [hl, if_true, List.length_append, List.length_singleton]
            omega
          · simp only [hl, if_false]
            exact h
      | recv =>
          simp only [chanStep, List.length_drop]
          omega

theorem foldl_chanStep_sublist (ops : List ChanOp) :
    ∀ ch : List Allocation,
      List.Sublist (ops.foldl chanStep ch) (ch ++ sentUpdates ops) := by
  induction ops with
  | nil => intro ch; simp
  | cons op t ih =>
      intro ch
      cases op with
      | send u =>
          simp only [List.foldl_cons, chanStep, Update, sentUpdates]
          by_cases hl : ch.length < updateChCapacity
          · simp only [hl, if_true]
            have h := ih (ch ++ [u])
            simpa [List.append_assoc] using h
          · simp only [hl, if_false]
            refine (ih ch).trans ?_
            exact List.Sublist.append_left (List.sublist_cons_self u (sentUpdates t)) ch
      | recv =>
          simp only [List.foldl_cons, chanStep, sentUpdates]
          refine (ih (ch.drop 1)).trans ?_
          exact List.Sublist.append_right (List.drop_sublist 1 ch) (sentUpdates t)

/-- Claim C9: `Update` is a non-blocking send on the 64-slot update
channel: with free space the update is enqueued at the tail (arrival
order), on a full channel it is dropped and nothing changes; hence over
any history the channel holds at most 64 updates, and they are a
subsequence of the sent updates in arrival order. -/
theorem update_nonblocking_drop (ops : List ChanOp) (ch : List Allocation)
    (u : Allocation) :
    (runUpdateCh ops).length ≤ updateChCapacity ∧
    List.Sublist (runUpdateCh ops) (sentUpdates ops) ∧
    (ch.length < updateChCapacity → Update ch u = (ch ++ [u], true)) ∧
    (updateChCapacity ≤ ch.length → Update ch u = (ch, false)) := by
  refine ⟨foldl_chanStep_length ops [] (by simp [updateChCapacity]), ?_, ?_, ?_⟩
  · have h := foldl_chanStep_sublist ops []
    simpa using h
  · intro h
    simp [Update, h]
  · intro h
    have h' : ¬ ch.length < updateChCapacity := by omega
    simp [Update, h']

/-- Witness for `update_nonblocking_drop` at a concrete input. -/
theorem update_nonblocking_drop_witness :
    (runUpdateCh [ChanOp.send ⟨"a1"⟩, ChanOp.recv, ChanOp.send ⟨"a2"⟩]).length ≤
        updateChCapacity ∧
    List.Sublist (runUpdateCh [ChanOp.send ⟨"a1"⟩, ChanOp.recv, ChanOp.send ⟨"a2"⟩])
      (sentUpdates [ChanOp.send ⟨"a1"⟩, ChanOp.recv, ChanOp.send ⟨"a2"⟩]) ∧
    (([] : List Allocation).length < updateChCapacity →
      Update [] ⟨"a3"⟩ = ([⟨"a3"⟩], true)) ∧
    (updateChCapacity ≤ ([] : List Allocation).length →
      Update [] ⟨"a3"⟩ = ([], false)) :=
  update_nonblocking_drop [ChanOp.send ⟨"a1"⟩, ChanOp.recv, ChanOp.send ⟨"a2"⟩] [] ⟨"a3"⟩
